import Mathlib

/-!
Verification of the storage core of the thunderbird-sender-notes add-on.

The JavaScript sources under `src/storage/` are shallowly embedded here:

* JS strings are Lean `String`s; `String.prototype.toLowerCase` is `jsToLower`
  (per-character ASCII lowering), `startsWith` / `endsWith` / `includes` are
  boolean functions on the underlying character lists.
* The asynchronous repository and migration-runner methods are pure
  state-passing functions: the persistent store is an explicit value
  (`List Note`, `List String` for templates, a migration log), the current
  time and freshly generated ids are explicit parameters, and JS exceptions
  are `Except` values.
* The concrete IndexedDB adapter is not part of the repository sources (only
  the abstract `StorageAdapter` contract is), so the adapter operations that
  the claims depend on are modelled from the specification; each such
  definition carries a doc comment starting with `Modelled from the spec:`.

The file is laid out as definitions first, then theorems.
-/

namespace SenderNotes

/-! ## Definitions: JS string primitives -/

/-- JS `String.prototype.toLowerCase` restricted to the ASCII range:
lower-case every character of the string. -/
def jsToLower (s : String) : String := String.mk (s.data.map Char.toLower)

/-- Boolean prefix test on character lists; `prefB p s` is JS `s.startsWith(p)`. -/
def prefB : List Char → List Char → Bool
  | [], _ => true
  | _ :: _, [] => false
  | a :: as, b :: bs => a == b && prefB as bs

/-- Boolean suffix test on character lists; `sufB p s` is JS `s.endsWith(p)`. -/
def sufB (p s : List Char) : Bool := prefB p.reverse s.reverse

/-- Boolean substring test on character lists; `subB p s` is JS `s.includes(p)`. -/
def subB (p : List Char) : List Char → Bool
  | [] => prefB p []
  | b :: bs => prefB p (b :: bs) || subB p bs

/-- JS `s.startsWith(p)` on strings. -/
def strStartsWith (s p : String) : Bool := prefB p.data s.data

/-- JS `s.endsWith(p)` on strings. -/
def strEndsWith (s p : String) : Bool := sufB p.data s.data

/-- JS `s.includes(p)` on strings. -/
def strIncludes (s p : String) : Bool := subB p.data s.data

/-! ## Definitions: pattern matching -/

/-- `NotesRepository.validatePattern(email, pattern, matchType)`
(src/storage/NotesRepository.js, lines 157-168): lower-case both inputs and
dispatch on the match type; the JS `switch` on string values is embedded as a
chain of equality tests with a `false` default. -/
def validatePattern (email pattern matchType : String) : Bool :=
  let emailLower := jsToLower email
  let patternLower := jsToLower pattern
  if matchType = "exact" then emailLower == patternLower
  else if matchType = "startsWith" then strStartsWith emailLower patternLower
  else if matchType = "endsWith" then strEndsWith emailLower patternLower
  else if matchType = "contains" then strIncludes emailLower patternLower
  else false

/-! ## Definitions: notes data model and repository -/

/-- A stored note (`@typedef Note` in src/storage/StorageAdapter.js). -/
structure Note where
  id : String
  pattern : String
  matchType : String
  note : String
  originalEmail : String
  createdAt : String
  updatedAt : String
deriving DecidableEq

/-- The argument object of `NotesRepository.saveNote`; `id` and
`originalEmail` may be absent (JS `undefined`). -/
structure NoteData where
  id : Option String
  pattern : String
  matchType : String
  note : String
  originalEmail : Option String
deriving DecidableEq

/-- The plain-data result object of `NotesRepository.saveNote`; fields that a
given return statement does not mention are `none` (JS `undefined`). -/
structure SaveResult where
  success : Bool
  noteId : Option String
  error : Option String
  message : Option String
  existingNoteId : Option String
deriving DecidableEq

/-- Modelled from the spec: the concrete persistence adapter is not among the
repository sources (only the abstract `StorageAdapter` contract is).
`getNoteById(id)` returns the stored Note with that id, or an absence
marker; the notes store is modelled as a list in storage order. -/
def getNoteById (notes : List Note) (id : String) : Option Note :=
  notes.find? (fun n => n.id == id)

/-- Modelled from the spec: the concrete adapter's
`findDuplicate(pattern, matchType, excludeId)` returns the one stored note
sharing `(pattern, matchType)` other than `excludeId`, or an absence marker;
uniqueness of the pair is case-insensitive on the pattern and stored patterns
are lower-case, so the lookup compares against the lower-cased argument. -/
def findDuplicate (notes : List Note) (pattern matchType : String)
    (excludeId : Option String) : Option Note :=
  match notes.find? (fun n => n.pattern == jsToLower pattern && n.matchType == matchType) with
  | some n => if excludeId = some n.id then none else some n
  | none => none

/-- Modelled from the spec: the concrete adapter's `saveNote(note)` has upsert
semantics keyed by `id` — replace the stored note with the same id, or append. -/
def putNote (notes : List Note) (n : Note) : List Note :=
  if notes.any (fun x => x.id == n.id) then
    notes.map (fun x => if x.id == n.id then n else x)
  else notes ++ [n]

/-- `NotesRepository.saveNote(noteData)` (src/storage/NotesRepository.js,
lines 56-91).  `now` is the value of `new Date().toISOString()` and `freshId`
the value `_generateId()` would produce; both are explicit parameters of the
pure embedding.  JS truthiness tests on strings (`if (id)`, `a || b`) are
embedded as emptiness tests, `""` and `undefined` being the falsy cases. -/
def saveNote (notes : List Note) (nd : NoteData) (now freshId : String) :
    List Note × SaveResult :=
  match findDuplicate notes nd.pattern nd.matchType nd.id with
  | some dup =>
      (notes, ⟨false, none, some "duplicate",
        some "A note with this exact pattern and match type already exists.",
        some dup.id⟩)
  | none =>
      let existingNote : Option Note :=
        match nd.id with
        | some i => if i = "" then none else getNoteById notes i
        | none => none
      let noteId : String :=
        match nd.id with
        | some i => if i = "" then freshId else i
        | none => freshId
      let createdAt : String :=
        match existingNote with
        | some ex => if ex.createdAt = "" then now else ex.createdAt
        | none => now
      let origFallback : String :=
        match nd.originalEmail with
        | some o => if o = "" then nd.pattern else o
        | none => nd.pattern
      let originalEmail : String :=
        match existingNote with
        | some ex => if ex.originalEmail = "" then origFallback else ex.originalEmail
        | none => origFallback
      let noteToSave : Note :=
        ⟨noteId, jsToLower nd.pattern, nd.matchType, nd.note, originalEmail,
          createdAt, now⟩
      (putNote notes noteToSave, ⟨true, some noteId, none, none, none⟩)

/-- The `pattern` argument that `NotesRepository.saveNote` passes to
`adapter.findDuplicate` at its duplicate check (src/storage/NotesRepository.js,
line 60): the destructured `pattern` field, as supplied by the caller. -/
def saveNoteDupCheckArg (nd : NoteData) : String := nd.pattern

/-- Modelled from the spec: one priority tier of the concrete adapter's
`findNotesByEmail` — the stored notes (in storage order) whose match type is
`mt` and whose pattern matches the email under `mt`. -/
def matchTier (notes : List Note) (email mt : String) : List Note :=
  notes.filter (fun n => n.matchType == mt && validatePattern email n.pattern mt)

/-- Modelled from the spec: the concrete adapter's `findNotesByEmail(email)`
returns all matching notes in fixed priority order
exact > startsWith > endsWith > contains, with storage order as the tie-break
inside a tier. -/
def findNotesByEmail (notes : List Note) (email : String) : List Note :=
  matchTier notes email "exact" ++ matchTier notes email "startsWith" ++
    matchTier notes email "endsWith" ++ matchTier notes email "contains"

/-- `NotesRepository.findNoteByEmail(email)` (src/storage/NotesRepository.js,
lines 130-133): the first element of the adapter's ordered match list when it
is non-empty, else the absence marker. -/
def findNoteByEmail (notes : List Note) (email : String) : Option Note :=
  match findNotesByEmail notes email with
  | [] => none
  | n :: _ => some n

/-- Numeric priority of a match type: exact before startsWith before endsWith
before contains; anything else ranks last. -/
def rank (mt : String) : Nat :=
  if mt = "exact" then 0
  else if mt = "startsWith" then 1
  else if mt = "endsWith" then 2
  else if mt = "contains" then 3
  else 4

/-! ## Definitions: templates -/

/-- The plain-data result object of `NotesRepository.addTemplate`. -/
structure TemplatesResult where
  success : Bool
  templates : List String
deriving DecidableEq

/-- `NotesRepository.getTemplates()` (src/storage/NotesRepository.js,
lines 176-182).  The adapter's templates store is modelled from the spec as
the persisted list (whole-collection replace semantics); `provider` is the
injected default-templates provider, `none` when unset, and a call to it is
modelled by the list it returns.  The persisted list is returned unless it is
empty and a provider is set, in which case the provider's list is returned
without being persisted. -/
def getTemplates (stored : List String) (provider : Option (List String)) :
    List String :=
  if stored.length = 0 then
    match provider with
    | some d => d
    | none => stored
  else stored

/-- `NotesRepository.addTemplate(template)` (src/storage/NotesRepository.js,
lines 199-206): read the (possibly defaulted) list, append and persist only
when the exact string is absent, and return `{success:true, templates}`. The
first component is the persisted templates store after the call. -/
def addTemplate (stored : List String) (provider : Option (List String))
    (t : String) : List String × TemplatesResult :=
  let templates := getTemplates stored provider
  if templates.contains t then (stored, ⟨true, templates⟩)
  else (templates ++ [t], ⟨true, templates ++ [t]⟩)

/-! ## Definitions: migration runner -/

/-- Lexicographic order on character lists, embedding the JS comparator
`a.localeCompare(b)` for the ASCII migration ids the runner uses. -/
def charListLe : List Char → List Char → Bool
  | [], _ => true
  | _ :: _, [] => false
  | a :: as, b :: bs => if a < b then true else if b < a then false else charListLe as bs

/-- `strLe a b` is `a.localeCompare(b) <= 0` for ASCII strings. -/
def strLe (a b : String) : Bool := charListLe a.data b.data

/-- A registered migration (see `MigrationRunner.register`'s doc comment):
an id, a description, an `up` function and an optional `down` function.  The
functions act on the abstract adapter-backed store `σ` and may fail with an
error message (a JS throw/reject). -/
structure Migration (σ : Type) where
  id : String
  description : String
  up : σ → Except String σ
  down : Option (σ → Except String σ)

/-- A record of the durable migration log: `{id, description, appliedAt}`
written by `MigrationRunner.markAsApplied`.  `appliedAt` is a logical
timestamp (ISO strings compare lexicographically, i.e. chronologically, so a
natural number preserves the comparison semantics). -/
structure AppliedRec where
  id : String
  description : String
  appliedAt : Nat
deriving DecidableEq

/-- The state a `MigrationRunner` plus its adapter close over: the registered
migrations list, the durable migration log, and the abstract store. -/
structure RunnerState (σ : Type) where
  migrations : List (Migration σ)
  log : List AppliedRec
  store : σ

/-- The summary object returned by `MigrationRunner.runPending`. -/
structure RunResult where
  success : Bool
  applied : List String
  errors : List (String × String)
deriving DecidableEq

/-- The result object returned by `MigrationRunner.rollbackLast`. -/
structure RollbackResult where
  success : Bool
  rolledBack : Option String
  error : Option String
deriving DecidableEq

/-- Stable insertion of a migration into an id-sorted list: the new entry
goes before the first strictly-later id and after existing equal ids. -/
def insertById {σ : Type} (m : Migration σ) : List (Migration σ) → List (Migration σ)
  | [] => [m]
  | x :: xs => if strLe m.id x.id then m :: x :: xs else x :: insertById m xs

/-- Stable insertion sort by migration id, embedding the JS
`array.sort((a, b) => a.id.localeCompare(b.id))` (stable in JS). -/
def sortById {σ : Type} : List (Migration σ) → List (Migration σ)
  | [] => []
  | x :: xs => insertById x (sortById xs)

/-- `MigrationRunner.register(migration)` (src/storage/MigrationRunner.js,
lines 23-27): push the migration, then keep the list sorted by id.  No
deduplication of any kind is performed. -/
def register {σ : Type} (st : RunnerState σ) (m : Migration σ) : RunnerState σ :=
  ⟨sortById (st.migrations ++ [m]), st.log, st.store⟩

/-- The ids present in a migration log. -/
def appliedIds (log : List AppliedRec) : List String := log.map (·.id)

/-- `MigrationRunner.markAsApplied` performs an IndexedDB `put` on the
`migrations` store keyed by `id`: replace the record with the same id, or
append.  Modelled from the spec: the migrations collection is keyed by
migration ID. -/
def putRec (log : List AppliedRec) (r : AppliedRec) : List AppliedRec :=
  if log.any (fun x => x.id == r.id) then
    log.map (fun x => if x.id == r.id then r else x)
  else log ++ [r]

/-- `MigrationRunner.getPendingMigrations()` (src/storage/MigrationRunner.js,
lines 115-120): registered migrations whose id has no applied-record. -/
def getPendingMigrations {σ : Type} (st : RunnerState σ) : List (Migration σ) :=
  st.migrations.filter (fun m => !((appliedIds st.log).contains m.id))

/-- The `for` loop of `MigrationRunner.runPending()` (src/storage/
MigrationRunner.js, lines 133-152): run each pending migration's `up`,
persist its applied-record immediately on success, and stop on the first
error, which is pushed as the only element of `errors`.  Returns the store,
the log, the advanced clock, the applied ids, and the errors. -/
def runLoop {σ : Type} : List (Migration σ) → σ → List AppliedRec → Nat → List String →
    σ × List AppliedRec × Nat × List String × List (String × String)
  | [], store, log, t, acc => (store, log, t, acc, [])
  | m :: rest, store, log, t, acc =>
    match m.up store with
    | .ok store' =>
        runLoop rest store' (putRec log ⟨m.id, m.description, t⟩) (t + 1)
          (acc ++ [m.id])
    | .error e => (store, log, t, acc, [(m.id, e)])

/-- `MigrationRunner.runPending()` (src/storage/MigrationRunner.js,
lines 126-159).  `t` is the logical clock stamping `appliedAt`.  Returns the
new runner state, the summary `{success, applied, errors}` and the advanced
clock. -/
def runPending {σ : Type} (st : RunnerState σ) (t : Nat) :
    RunnerState σ × RunResult × Nat :=
  match runLoop (getPendingMigrations st) st.store st.log t [] with
  | (store', log', t', applied, errors) =>
      (⟨st.migrations, log', store'⟩, ⟨errors.isEmpty, applied, errors⟩, t')

/-- Sequential execution of a list of `up` functions, stopping at the first
error; used to characterise which migrations actually ran. -/
def upsAll {σ : Type} : List (Migration σ) → σ → Except String σ
  | [], s => .ok s
  | m :: rest, s =>
    match m.up s with
    | .ok s' => upsAll rest s'
    | .error e => .error e

/-- The applied-records `runPending` writes for a successfully executed
prefix, stamped with consecutive clock values starting at `t`. -/
def recsFor {σ : Type} : List (Migration σ) → Nat → List AppliedRec
  | [], _ => []
  | m :: rest, t => ⟨m.id, m.description, t⟩ :: recsFor rest (t + 1)

/-- One step of scanning for the most recent record: keep the candidate with
the strictly larger `appliedAt` (ties keep the earlier candidate, as a stable
descending sort does). -/
def maxAcc (acc : Option AppliedRec) (r : AppliedRec) : Option AppliedRec :=
  match acc with
  | none => some r
  | some b => if b.appliedAt < r.appliedAt then some r else some b

/-- `applied.sort((a, b) => b.appliedAt.localeCompare(a.appliedAt))[0]` in
`MigrationRunner.rollbackLast`: a stable descending sort followed by taking
the head selects the first record carrying the maximal `appliedAt`, which is
what this scan computes. -/
def lastAppliedRec (log : List AppliedRec) : Option AppliedRec :=
  log.foldl maxAcc none

/-- `MigrationRunner.rollbackLast()` (src/storage/MigrationRunner.js,
lines 165-210): empty applied set succeeds with `rolledBack:null`; otherwise
locate the registered definition of the most recent record, require a `down`
function, run it, and delete the applied-record only on success. -/
def rollbackLast {σ : Type} (st : RunnerState σ) : RunnerState σ × RollbackResult :=
  match lastAppliedRec st.log with
  | none => (st, ⟨true, none, none⟩)
  | some lastR =>
    match st.migrations.find? (fun m => m.id == lastR.id) with
    | none =>
        (st, ⟨false, none,
          some ("Migration " ++ lastR.id ++ " not found in registered migrations")⟩)
    | some m =>
      match m.down with
      | none =>
          (st, ⟨false, none,
            some ("Migration " ++ lastR.id ++ " does not have a rollback function")⟩)
      | some down =>
        match down st.store with
        | .ok store' =>
            (⟨st.migrations, st.log.filter (fun r => !(r.id == m.id)), store'⟩,
             ⟨true, some m.id, none⟩)
        | .error e => (st, ⟨false, none, some e⟩)

/-- A migration whose `up` increments a counter store (used by concrete
scenarios). -/
def incMig (id : String) : Migration Nat :=
  ⟨id, "increment", fun n => .ok (n + 1), none⟩

/-- A migration whose `up` always fails (used by concrete scenarios). -/
def failMig (id : String) : Migration Nat :=
  ⟨id, "always fails", fun _ => .error "boom", none⟩

/-- A migration with a `down` that decrements the counter store. -/
def decMig (id : String) : Migration Nat :=
  ⟨id, "decrement on rollback", fun n => .ok (n + 1), some (fun n => .ok (n - 1))⟩

/-- Registering two migration objects with the same id, on a fresh store. -/
def dupRegState : RunnerState Nat :=
  register (register ⟨[], [], 0⟩ (incMig "001_x")) (incMig "001_x")

/-- A fresh runner with one succeeding and one subsequently failing
migration, in ascending id order. -/
def failRunState : RunnerState Nat :=
  ⟨[incMig "001_a", failMig "002_b"], [], 0⟩

/-- A runner holding one applied record for `001_a` whose registered
definition has a rollback function, with counter store 3. -/
def rollbackState : RunnerState Nat :=
  ⟨[decMig "001_a"], [⟨"001_a", "dec", 5⟩], 3⟩

/-- A fresh runner with two counter-incrementing migrations `001_a`, `002_b`
(the spec's idempotence scenario). -/
def counterRunState : RunnerState Nat :=
  ⟨[incMig "001_a", incMig "002_b"], [], 0⟩

/-- A sample stored note used by concrete witnesses. -/
def sampleNote : Note :=
  ⟨"id1", "alice@example.com", "exact", "VIP", "alice@example.com",
    "2024-01-01", "2024-01-01"⟩

/-- A sample save request that duplicates `sampleNote`. -/
def sampleDupData : NoteData :=
  ⟨none, "alice@example.com", "exact", "second", none⟩

/-! ## Theorems -/

theorem prefB_iff (p s : List Char) : prefB p s = true ↔ p <+: s := by
  induction p generalizing s with
  | nil => simp [prefB]
  | cons a as ih =>
    cases s with
    | nil => simp [prefB]
    | cons b bs => simp [prefB, ih, List.cons_prefix_cons]

theorem sufB_iff (p s : List Char) : sufB p s = true ↔ p <:+ s := by
  rw [sufB, prefB_iff]
  exact List.reverse_prefix

theorem subB_iff (p s : List Char) : subB p s = true ↔ p <:+: s := by
  induction s with
  | nil => simp [subB, prefB_iff]
  | cons b bs ih => simp [subB, prefB_iff, ih, List.infix_cons_iff]

/-- C7: `validatePattern` is a pure, total boolean predicate: it holds exactly
when the match type is one of the four known values and the lower-cased
pattern relates to the lower-cased email by equality / prefix / suffix /
substring respectively; every other match type yields `false` (the function
never fails); and the concrete case-insensitivity example
`validatePattern "Foo@Bar.com" "foo@bar.com" "exact"` evaluates to `true`. -/
theorem validatePattern_spec :
    (∀ email pattern matchType : String,
      validatePattern email pattern matchType = true ↔
        ((matchType = "exact" ∧ jsToLower email = jsToLower pattern) ∨
         (matchType = "startsWith" ∧ (jsToLower pattern).data <+: (jsToLower email).data) ∨
         (matchType = "endsWith" ∧ (jsToLower pattern).data <:+ (jsToLower email).data) ∨
         (matchType = "contains" ∧ (jsToLower pattern).data <:+: (jsToLower email).data)))
    ∧ validatePattern "Foo@Bar.com" "foo@bar.com" "exact" = true := by
  refine ⟨?_, by decide⟩
  intro email pattern matchType
  unfold validatePattern
  split_ifs with h1 h2 h3 h4
  · subst h1
    rw [beq_iff_eq]
    constructor
    · exact fun h => Or.inl ⟨rfl, h⟩
    · rintro (⟨_, h⟩ | ⟨hc, _⟩ | ⟨hc, _⟩ | ⟨hc, _⟩)
      · exact h
      all_goals exact absurd hc (by decide)
  · subst h2
    rw [strStartsWith, prefB_iff]
    constructor
    · exact fun h => Or.inr (Or.inl ⟨rfl, h⟩)
    · rintro (⟨hc, _⟩ | ⟨_, h⟩ | ⟨hc, _⟩ | ⟨hc, _⟩)
      · exact absurd hc (by decide)
      · exact h
      all_goals exact absurd hc (by decide)
  · subst h3
    rw [strEndsWith, sufB_iff]
    constructor
    · exact fun h => Or.inr (Or.inr (Or.inl ⟨rfl, h⟩))
    · rintro (⟨hc, _⟩ | ⟨hc, _⟩ | ⟨_, h⟩ | ⟨hc, _⟩)
      · exact absurd hc (by decide)
      · exact absurd hc (by decide)
      · exact h
      · exact absurd hc (by decide)
  · subst h4
    rw [strIncludes, subB_iff]
    constructor
    · exact fun h => Or.inr (Or.inr (Or.inr ⟨rfl, h⟩))
    · rintro (⟨hc, _⟩ | ⟨hc, _⟩ | ⟨hc, _⟩ | ⟨_, h⟩)
      · exact absurd hc (by decide)
      · exact absurd hc (by decide)
      · exact absurd hc (by decide)
      · exact h
  · simp [h1, h2, h3, h4]

theorem find_map_replace (notes : List Note) (n : Note)
    (h : notes.any (fun x => x.id == n.id) = true) :
    (notes.map (fun x => if x.id == n.id then n else x)).find?
      (fun x => x.id == n.id) = some n := by
  induction notes with
  | nil => simp at h
  | cons x xs ih =>
    by_cases hx : (x.id == n.id) = true
    · simp [hx, List.find?]
    · have hx' : (x.id == n.id) = false := Bool.eq_false_iff.mpr hx
      have hxs : xs.any (fun y => y.id == n.id) = true := by
        simp only [List.any_cons, hx', Bool.false_or] at h
        exact h
      have hfx : (if x.id == n.id then n else x) = x := by simp [hx']
      rw [List.map_cons, hfx, List.find?_cons, hx']
      exact ih hxs

theorem find_append_new (notes : List Note) (n : Note)
    (h : notes.any (fun x => x.id == n.id) = false) :
    (notes ++ [n]).find? (fun x => x.id == n.id) = some n := by
  induction notes with
  | nil => simp [List.find?]
  | cons x xs ih =>
    simp only [List.any_cons, Bool.or_eq_false_iff] at h
    simp only [List.cons_append, List.find?_cons, h.1]
    exact ih h.2

/-- After an adapter-level upsert of `n`, looking up `n.id` returns `n`. -/
theorem getNoteById_putNote (notes : List Note) (n : Note) :
    getNoteById (putNote notes n) n.id = some n := by
  unfold getNoteById putNote
  by_cases h : notes.any (fun x => x.id == n.id) = true
  · rw [if_pos h]
    exact find_map_replace notes n h
  · rw [if_neg h]
    exact find_append_new notes n (Bool.eq_false_iff.mpr h)

/-- C1: when the adapter's duplicate lookup reports an existing note for the
saved `(pattern, matchType)` (with a different id, which `findDuplicate`
guarantees), `saveNote` returns the structured failure
`{success:false, error:'duplicate', existingNoteId}` and leaves the notes
store unchanged; the result does not depend on the current time or on a
freshly generated id, so the rejected write has zero side effects. -/
theorem saveNote_duplicate_rejected (notes : List Note) (nd : NoteData)
    (now freshId : String) (dup : Note)
    (h : findDuplicate notes nd.pattern nd.matchType nd.id = some dup) :
    saveNote notes nd now freshId =
      (notes, ⟨false, none, some "duplicate",
        some "A note with this exact pattern and match type already exists.",
        some dup.id⟩) := by
  unfold saveNote
  rw [h]

/-- Witness for C1: a concrete duplicate save is rejected without mutation. -/
theorem saveNote_duplicate_rejected_witness :
    findDuplicate [sampleNote] sampleDupData.pattern sampleDupData.matchType
        sampleDupData.id = some sampleNote ∧
    saveNote [sampleNote] sampleDupData "2024-02-02" "fresh" =
      ([sampleNote],
       ⟨false, none, some "duplicate",
        some "A note with this exact pattern and match type already exists.",
        some "id1"⟩) :=
  ⟨by decide,
   saveNote_duplicate_rejected [sampleNote] sampleDupData "2024-02-02" "fresh"
     sampleNote (by decide)⟩

/-- C3: a successful `saveNote` that carries the id of an existing note
preserves that note's `createdAt`, keeps its `originalEmail` whenever one was
present (falling back to the caller-supplied value and then to the pattern only
when it was not), and always stamps `updatedAt` with the current time; when no
prior note exists (id absent or empty) `createdAt` is set to the current
time. -/
theorem saveNote_update_preserves_provenance :
    (∀ (notes : List Note) (nd : NoteData) (now freshId i : String) (ex : Note),
      nd.id = some i → i ≠ "" →
      getNoteById notes i = some ex →
      findDuplicate notes nd.pattern nd.matchType nd.id = none →
      ex.createdAt ≠ "" →
      ∃ n' : Note,
        saveNote notes nd now freshId =
          (putNote notes n', ⟨true, some i, none, none, none⟩) ∧
        getNoteById (saveNote notes nd now freshId).1 i = some n' ∧
        n'.createdAt = ex.createdAt ∧
        n'.updatedAt = now ∧
        (ex.originalEmail ≠ "" → n'.originalEmail = ex.originalEmail) ∧
        (∀ o, ex.originalEmail = "" → nd.originalEmail = some o → o ≠ "" →
          n'.originalEmail = o) ∧
        (ex.originalEmail = "" → (nd.originalEmail = none ∨ nd.originalEmail = some "") →
          n'.originalEmail = nd.pattern)) ∧
    (∀ (notes : List Note) (nd : NoteData) (now freshId : String),
      (nd.id = none ∨ nd.id = some "") →
      findDuplicate notes nd.pattern nd.matchType nd.id = none →
      ∃ n' : Note,
        saveNote notes nd now freshId =
          (putNote notes n', ⟨true, some freshId, none, none, none⟩) ∧
        getNoteById (saveNote notes nd now freshId).1 freshId = some n' ∧
        n'.createdAt = now ∧ n'.updatedAt = now) := by
  constructor
  · intro notes nd now freshId i ex hid hi hex hdup hca
    refine ⟨⟨i, jsToLower nd.pattern, nd.matchType, nd.note,
      (if ex.originalEmail = "" then
        (match nd.originalEmail with
          | some o => if o = "" then nd.pattern else o
          | none => nd.pattern)
       else ex.originalEmail), ex.createdAt, now⟩, ?_, ?_, rfl, rfl, ?_, ?_, ?_⟩
    · unfold saveNote
      rw [hdup]
      simp only [hid, if_neg hi, hex, if_neg hca]
    · unfold saveNote
      rw [hdup]
      simp only [hid, if_neg hi, hex, if_neg hca]
      exact getNoteById_putNote notes _
    · intro hoe
      simp [if_neg hoe]
    · intro o hoe hnd ho
      simp [hoe, hnd, if_neg ho]
    · intro hoe hnd
      rcases hnd with hnd | hnd <;> simp [hoe, hnd]
  · intro notes nd now freshId hid hdup
    refine ⟨⟨freshId, jsToLower nd.pattern, nd.matchType, nd.note,
      (match nd.originalEmail with
        | some o => if o = "" then nd.pattern else o
        | none => nd.pattern), now, now⟩, ?_, ?_, rfl, rfl⟩
    · unfold saveNote
      rw [hdup]
      rcases hid with hid | hid <;> simp [hid]
    · unfold saveNote
      rw [hdup]
      rcases hid with hid | hid <;>
        (simp only [hid]; exact getNoteById_putNote notes _)

/-- Witness for C3: updating a concrete stored note keeps its `createdAt` and
`originalEmail` and refreshes `updatedAt`. -/
theorem saveNote_update_preserves_provenance_witness :
    ∃ n' : Note,
      saveNote [sampleNote] ⟨some "id1", "Alice@Example.com", "contains", "edited", none⟩
          "2024-03-03" "fresh" =
        (putNote [sampleNote] n', ⟨true, some "id1", none, none, none⟩) ∧
      getNoteById (saveNote [sampleNote]
          ⟨some "id1", "Alice@Example.com", "contains", "edited", none⟩
          "2024-03-03" "fresh").1 "id1" = some n' ∧
      n'.createdAt = "2024-01-01" ∧ n'.updatedAt = "2024-03-03" ∧
      n'.originalEmail = "alice@example.com" := by
  obtain ⟨n', h1, h2, h3, h4, h5, -, -⟩ :=
    saveNote_update_preserves_provenance.1 [sampleNote]
      ⟨some "id1", "Alice@Example.com", "contains", "edited", none⟩
      "2024-03-03" "fresh" "id1" sampleNote rfl (by decide) (by decide)
      (by decide) (by decide)
  exact ⟨n', h1, h2, h3, h4, h5 (by decide)⟩

/-- C6 counterexample: `saveNote` does not lower-case the pattern before the
duplicate check — the argument handed to `adapter.findDuplicate` at line 60 is
the caller's pattern verbatim, and for a mixed-case pattern it differs from
its lower-casing (normalization only happens later, when the note to persist
is built). -/
theorem saveNote_dupcheck_arg_not_lowercased :
    saveNoteDupCheckArg ⟨none, "Alice@Example.com", "exact", "x", none⟩ ≠
      jsToLower (NoteData.pattern ⟨none, "Alice@Example.com", "exact", "x", none⟩) := by
  decide

/-- C6 (amended): `saveNote` passes the caller's pattern unlowered to the
duplicate check and lower-cases it only in the note it persists; uniqueness of
`(pattern, matchType)` is nevertheless enforced case-insensitively on the
write path because the duplicate lookup lower-cases the pattern itself: a save
whose pattern differs from a stored note's pattern only in letter case, with
the same match type and a different id, is rejected as a duplicate, and every
successfully persisted note carries the lower-cased pattern. -/
theorem saveNote_case_insensitive_dedup :
    (∀ nd : NoteData, saveNoteDupCheckArg nd = nd.pattern) ∧
    (∀ (notes : List Note) (nd : NoteData) (now freshId : String) (B : Note),
      notes.find? (fun n => n.pattern == jsToLower nd.pattern &&
        n.matchType == nd.matchType) = some B →
      nd.id ≠ some B.id →
      saveNote notes nd now freshId =
        (notes, ⟨false, none, some "duplicate",
          some "A note with this exact pattern and match type already exists.",
          some B.id⟩)) ∧
    (∀ (notes : List Note) (nd : NoteData) (now freshId : String),
      findDuplicate notes nd.pattern nd.matchType nd.id = none →
      ∃ (i : String) (n' : Note),
        (saveNote notes nd now freshId).2.noteId = some i ∧
        getNoteById (saveNote notes nd now freshId).1 i = some n' ∧
        n'.pattern = jsToLower nd.pattern) := by
  refine ⟨fun _ => rfl, ?_, ?_⟩
  · intro notes nd now freshId B hfind hne
    unfold saveNote findDuplicate
    rw [hfind]
    simp only [if_neg hne]
  · intro notes nd now freshId hdup
    unfold saveNote
    rw [hdup]
    exact ⟨_, _, rfl, getNoteById_putNote notes _, rfl⟩

/-- Witness for the amended C6: a save whose pattern differs from the stored
`sampleNote` only in letter case is rejected as a duplicate, with the stored
note's id reported and the store unchanged. -/
theorem saveNote_case_insensitive_dedup_witness :
    saveNote [sampleNote] ⟨none, "ALICE@Example.COM", "exact", "dup", none⟩
        "2024-04-04" "fresh" =
      ([sampleNote],
       ⟨false, none, some "duplicate",
        some "A note with this exact pattern and match type already exists.",
        some "id1"⟩) :=
  saveNote_case_insensitive_dedup.2.1 [sampleNote]
    ⟨none, "ALICE@Example.COM", "exact", "dup", none⟩ "2024-04-04" "fresh"
    sampleNote (by decide) (by decide)

theorem mem_matchTier (notes : List Note) (email mt : String) (n : Note) :
    n ∈ matchTier notes email mt ↔
      n ∈ notes ∧ n.matchType = mt ∧ validatePattern email n.pattern mt = true := by
  simp [matchTier, List.mem_filter, Bool.and_eq_true, and_assoc]

theorem validatePattern_matchType (e p mt : String)
    (h : validatePattern e p mt = true) :
    mt = "exact" ∨ mt = "startsWith" ∨ mt = "endsWith" ∨ mt = "contains" := by
  unfold validatePattern at h
  split_ifs at h with h1 h2 h3 h4
  · exact Or.inl h1
  · exact Or.inr (Or.inl h2)
  · exact Or.inr (Or.inr (Or.inl h3))
  · exact Or.inr (Or.inr (Or.inr h4))

theorem tier_filter_congr (notes : List Note) (email mt : String) :
    notes.filter (fun n => n.matchType == mt &&
        validatePattern email n.pattern n.matchType) =
      matchTier notes email mt := by
  unfold matchTier
  apply List.filter_congr
  intro n _
  by_cases h : n.matchType = mt
  · rw [h]
  · have hb : (n.matchType == mt) = false := by simp [h]
    rw [hb, Bool.false_and, Bool.false_and]

theorem matchTier_filter_self (notes : List Note) (email mt : String) :
    (matchTier notes email mt).filter (fun n => n.matchType == mt) =
      matchTier notes email mt :=
  List.filter_eq_self.mpr fun a ha =>
    beq_iff_eq.mpr ((mem_matchTier notes email mt a).mp ha).2.1

theorem matchTier_filter_other (notes : List Note) (email : String)
    {mt' mt : String} (h : mt' ≠ mt) :
    (matchTier notes email mt').filter (fun n => n.matchType == mt) = [] := by
  rw [List.filter_eq_nil_iff]
  intro a ha
  have := ((mem_matchTier notes email mt' a).mp ha).2.1
  simp [this, h]

/-- C2: `findNotesByEmail` returns exactly the stored notes whose pattern
matches the email under their own match type; the returned list is ordered by
the fixed priority exact > startsWith > endsWith > contains; within each
priority tier it is exactly the storage-ordered sublist of matching notes of
that tier; and `findNoteByEmail` is its first element (absence marker when
empty). -/
theorem findNotesByEmail_spec (notes : List Note) (email : String) :
    (∀ n, n ∈ findNotesByEmail notes email ↔
        n ∈ notes ∧ validatePattern email n.pattern n.matchType = true) ∧
    (findNotesByEmail notes email).Pairwise
      (fun a b => rank a.matchType ≤ rank b.matchType) ∧
    ((findNotesByEmail notes email).filter (fun n => n.matchType == "exact") =
      notes.filter (fun n => n.matchType == "exact" &&
        validatePattern email n.pattern n.matchType)) ∧
    ((findNotesByEmail notes email).filter (fun n => n.matchType == "startsWith") =
      notes.filter (fun n => n.matchType == "startsWith" &&
        validatePattern email n.pattern n.matchType)) ∧
    ((findNotesByEmail notes email).filter (fun n => n.matchType == "endsWith") =
      notes.filter (fun n => n.matchType == "endsWith" &&
        validatePattern email n.pattern n.matchType)) ∧
    ((findNotesByEmail notes email).filter (fun n => n.matchType == "contains") =
      notes.filter (fun n => n.matchType == "contains" &&
        validatePattern email n.pattern n.matchType)) ∧
    findNoteByEmail notes email = (findNotesByEmail notes email).head? := by
  have hmem : ∀ mt (a : Note), a ∈ matchTier notes email mt →
      rank a.matchType = rank mt := by
    intro mt a ha
    rw [((mem_matchTier notes email mt a).mp ha).2.1]
  have tierPairwise : ∀ mt, (matchTier notes email mt).Pairwise
      (fun a b => rank a.matchType ≤ rank b.matchType) := by
    intro mt
    apply List.pairwise_of_forall_mem_list
    intro a ha b hb
    rw [hmem mt a ha, hmem mt b hb]
  have cross : ∀ mt1 mt2 : String, rank mt1 ≤ rank mt2 →
      ∀ a ∈ matchTier notes email mt1, ∀ b ∈ matchTier notes email mt2,
        rank a.matchType ≤ rank b.matchType := by
    intro mt1 mt2 hle a ha b hb
    rw [hmem mt1 a ha, hmem mt2 b hb]
    exact hle
  refine ⟨?_, ?_, ?_, ?_, ?_, ?_, ?_⟩
  · intro n
    constructor
    · intro hn
      simp only [findNotesByEmail, List.mem_append, or_assoc] at hn
      rcases hn with h | h | h | h <;>
        · obtain ⟨h1, h2, h3⟩ := (mem_matchTier notes email _ n).mp h
          exact ⟨h1, by rw [h2]; exact h3⟩
    · rintro ⟨hmemn, hval⟩
      simp only [findNotesByEmail, List.mem_append, or_assoc]
      rcases validatePattern_matchType email n.pattern n.matchType hval with
        h | h | h | h
      · exact Or.inl ((mem_matchTier notes email _ n).mpr ⟨hmemn, h, h ▸ hval⟩)
      · exact Or.inr (Or.inl
          ((mem_matchTier notes email _ n).mpr ⟨hmemn, h, h ▸ hval⟩))
      · exact Or.inr (Or.inr (Or.inl
          ((mem_matchTier notes email _ n).mpr ⟨hmemn, h, h ▸ hval⟩)))
      · exact Or.inr (Or.inr (Or.inr
          ((mem_matchTier notes email _ n).mpr ⟨hmemn, h, h ▸ hval⟩)))
  · unfold findNotesByEmail
    rw [List.pairwise_append]
    refine ⟨?_, tierPairwise _, ?_⟩
    · rw [List.pairwise_append]
      refine ⟨?_, tierPairwise _, ?_⟩
      · rw [List.pairwise_append]
        exact ⟨tierPairwise _, tierPairwise _,
          fun a ha b hb => cross "exact" "startsWith" (by decide) a ha b hb⟩
      · intro a ha b hb
        rcases List.mem_append.mp ha with ha | ha
        · exact cross "exact" "endsWith" (by decide) a ha b hb
        · exact cross "startsWith" "endsWith" (by decide) a ha b hb
    · intro a ha b hb
      rcases List.mem_append.mp ha with ha | ha
      · rcases List.mem_append.mp ha with ha | ha
        · exact cross "exact" "contains" (by decide) a ha b hb
        · exact cross "startsWith" "contains" (by decide) a ha b hb
      · exact cross "endsWith" "contains" (by decide) a ha b hb
  · rw [tier_filter_congr]
    unfold findNotesByEmail
    rw [List.filter_append, List.filter_append, List.filter_append,
      matchTier_filter_self, matchTier_filter_other notes email (by decide),
      matchTier_filter_other notes email (by decide),
      matchTier_filter_other notes email (by decide)]
    simp
  · rw [tier_filter_congr]
    unfold findNotesByEmail
    rw [List.filter_append, List.filter_append, List.filter_append,
      matchTier_filter_self, matchTier_filter_other notes email (by decide),
      matchTier_filter_other notes email (by decide),
      matchTier_filter_other notes email (by decide)]
    simp
  · rw [tier_filter_congr]
    unfold findNotesByEmail
    rw [List.filter_append, List.filter_append, List.filter_append,
      matchTier_filter_self, matchTier_filter_other notes email (by decide),
      matchTier_filter_other notes email (by decide),
      matchTier_filter_other notes email (by decide)]
    simp
  · rw [tier_filter_congr]
    unfold findNotesByEmail
    rw [List.filter_append, List.filter_append, List.filter_append,
      matchTier_filter_self, matchTier_filter_other notes email (by decide),
      matchTier_filter_other notes email (by decide),
      matchTier_filter_other notes email (by decide)]
    simp
  · cases h : findNotesByEmail notes email <;> simp [findNoteByEmail, h]

/-- C8: with an empty persisted list and a provider set, `getTemplates`
returns the provider's list while the store stays empty (defaults are never
persisted by the read path); `addTemplate` always reports success and a list
containing the new string, is a no-op on storage when the exact string is
already in the visible list, and otherwise appends it to the visible list and
persists that; the spec scenario (defaults `["Thanks!","Noted."]`, adding
`"Thanks!"`) leaves the store empty and the visible list unchanged. -/
theorem templates_defaults_spec :
    (∀ d : List String, getTemplates [] (some d) = d) ∧
    (∀ (stored : List String) (provider : Option (List String)) (t : String),
      (addTemplate stored provider t).2.success = true ∧
      t ∈ (addTemplate stored provider t).2.templates ∧
      (t ∈ getTemplates stored provider →
        addTemplate stored provider t =
          (stored, ⟨true, getTemplates stored provider⟩)) ∧
      (t ∉ getTemplates stored provider →
        addTemplate stored provider t =
          (getTemplates stored provider ++ [t],
           ⟨true, getTemplates stored provider ++ [t]⟩))) ∧
    (addTemplate [] (some ["Thanks!", "Noted."]) "Thanks!" =
      ([], ⟨true, ["Thanks!", "Noted."]⟩) ∧
     getTemplates (addTemplate [] (some ["Thanks!", "Noted."]) "Thanks!").1
        (some ["Thanks!", "Noted."]) = ["Thanks!", "Noted."]) := by
  refine ⟨fun d => rfl, ?_, by decide, by decide⟩
  intro stored provider t
  by_cases h : (getTemplates stored provider).contains t = true
  · have hm : t ∈ getTemplates stored provider := by simpa using h
    refine ⟨?_, ?_, fun _ => ?_, fun hn => absurd hm hn⟩ <;>
      simp [addTemplate, h, hm]
  · have hb : (getTemplates stored provider).contains t = false :=
      Bool.eq_false_iff.mpr h
    have hm : t ∉ getTemplates stored provider := by simpa using hb
    refine ⟨?_, ?_, fun hmem => absurd hmem hm, fun _ => ?_⟩ <;>
      simp [addTemplate, hb, hm]

/-- Witness for C8: adding a genuinely new template to a store that shows two
defaults persists the three-element list. -/
theorem templates_defaults_spec_witness :
    addTemplate [] (some ["Thanks!", "Noted."]) "Hi!" =
      (["Thanks!", "Noted.", "Hi!"], ⟨true, ["Thanks!", "Noted.", "Hi!"]⟩) :=
  ((templates_defaults_spec.2.1 [] (some ["Thanks!", "Noted."]) "Hi!").2.2.2
    (by decide))

/-- C10: `register` keeps both of two same-id registrations (no
deduplication), a single `runPending` call executes the `up` of both objects
(the counter reaches 2 and the id is reported twice in `applied`, while the
keyed log holds a single record), and only across separate `runPending` calls
does the applied-record filter a further same-id registration out (the second
call applies nothing and leaves the counter at 2). -/
theorem register_no_dedup :
    dupRegState.migrations.length = 2 ∧
    (runPending dupRegState 0).1.store = 2 ∧
    (runPending dupRegState 0).2.1 = ⟨true, ["001_x", "001_x"], []⟩ ∧
    appliedIds (runPending dupRegState 0).1.log = ["001_x"] ∧
    (runPending (register (runPending dupRegState 0).1 (incMig "001_x")) 5).2.1 =
      ⟨true, [], []⟩ ∧
    (runPending (register (runPending dupRegState 0).1 (incMig "001_x")) 5).1.store = 2 :=
  ⟨rfl, rfl, rfl, rfl, rfl, rfl⟩

theorem putRec_fresh (log : List AppliedRec) (r : AppliedRec)
    (h : r.id ∉ appliedIds log) : putRec log r = log ++ [r] := by
  unfold putRec
  rw [if_neg]
  intro hany
  rcases List.any_eq_true.mp hany with ⟨x, hx, hxr⟩
  exact h ((beq_iff_eq.mp hxr) ▸ List.mem_map_of_mem _ hx)

theorem appliedIds_append (a b : List AppliedRec) :
    appliedIds (a ++ b) = appliedIds a ++ appliedIds b :=
  List.map_append _ a b

theorem recsFor_ids {σ : Type} (ms : List (Migration σ)) (t : Nat) :
    appliedIds (recsFor ms t) = ms.map (·.id) := by
  induction ms generalizing t with
  | nil => rfl
  | cons m rest ih => simp [recsFor, appliedIds, List.map_cons] at ih ⊢; exact ih _

/-- Full characterisation of the `runPending` loop on fresh, duplicate-free
pending ids: some prefix of length `k` succeeds, each success appending its
applied-record; either the whole list ran (`errors` empty) or the `(k+1)`-st
migration's `up` failed at the store the prefix produced, the loop stopped,
and `errors` holds exactly that failure. -/
theorem runLoop_spec {σ : Type} (pending : List (Migration σ)) (store : σ)
    (log : List AppliedRec) (t : Nat) (acc : List String)
    (hfresh : ∀ m ∈ pending, m.id ∉ appliedIds log)
    (hnd : (pending.map (·.id)).Nodup) :
    ∃ (k : Nat) (store' : σ) (E : List (String × String)),
      k ≤ pending.length ∧
      upsAll (pending.take k) store = .ok store' ∧
      runLoop pending store log t acc =
        (store', log ++ recsFor (pending.take k) t, t + k,
         acc ++ (pending.take k).map (·.id), E) ∧
      ((k = pending.length ∧ E = []) ∨
       (∃ mf rest e, pending.drop k = mf :: rest ∧ mf.up store' = .error e ∧
         E = [(mf.id, e)])) := by
  induction pending generalizing store log t acc with
  | nil =>
      exact ⟨0, store, [], Nat.le_refl 0, rfl, by simp [runLoop, recsFor],
        Or.inl ⟨rfl, rfl⟩⟩
  | cons m rest ih =>
      cases hup : m.up store with
      | error e =>
          refine ⟨0, store, [(m.id, e)], Nat.zero_le _, rfl, ?_,
            Or.inr ⟨m, rest, e, rfl, hup, rfl⟩⟩
          simp [runLoop, hup, recsFor]
      | ok s' =>
          have hmfresh : m.id ∉ appliedIds log := hfresh m (List.mem_cons_self m rest)
          have hput : putRec log ⟨m.id, m.description, t⟩ =
              log ++ [⟨m.id, m.description, t⟩] :=
            putRec_fresh log _ hmfresh
          rw [List.map_cons] at hnd
          have hndc := List.nodup_cons.mp hnd
          have hfresh' : ∀ x ∈ rest,
              x.id ∉ appliedIds (log ++ [⟨m.id, m.description, t⟩]) := by
            intro x hx
            rw [appliedIds_append]
            intro hmem
            rcases List.mem_append.mp hmem with hmem | hmem
            · exact hfresh x (List.mem_cons_of_mem m hx) hmem
            · have hxm : x.id = m.id := by simpa [appliedIds] using hmem
              exact hndc.1 (hxm ▸ List.mem_map_of_mem _ hx)
          obtain ⟨k, store', E, hk, hups, hrun, hdisj⟩ :=
            ih s' (log ++ [⟨m.id, m.description, t⟩]) (t + 1) (acc ++ [m.id])
              hfresh' hndc.2
          refine ⟨k + 1, store', E, Nat.succ_le_succ hk, ?_, ?_, ?_⟩
          · rw [List.take_succ_cons]
            simp only [upsAll, hup]
            exact hups
          · simp only [runLoop, hup, hput]
            rw [hrun, (show t + 1 + k = t + (k + 1) by omega)]
            simp [List.take_succ_cons, recsFor, List.append_assoc]
          · rcases hdisj with ⟨hkl, hE⟩ | ⟨mf, rest', e, hdrop, herr, hE⟩
            · exact Or.inl ⟨by simp [hkl], hE⟩
            · exact Or.inr ⟨mf, rest', e, by simpa [List.drop_succ_cons] using hdrop,
                herr, hE⟩

/-- C4: with duplicate-free (and, for the ordering clause, id-sorted)
registered migrations, `runPending` executes a prefix of the pending list in
ascending id order, persisting an applied-record for each success (the final
log is the old log plus exactly those records, in execution order); on the
first failing `up` the loop halts: the summary is unsuccessful, `errors`
holds exactly that one failure, the failed migration has no applied-record,
no later pending migration ran (the final store is exactly the successful
prefix's effect), and all prior records survive.  `errors` never holds more
than one entry and `success` holds exactly when it is empty. -/
theorem runPending_fail_fast {σ : Type} (st : RunnerState σ) (t : Nat)
    (hsorted : (st.migrations.map (·.id)).Pairwise (fun a b => strLe a b = true))
    (hnd : (st.migrations.map (·.id)).Nodup) :
    ∃ k, k ≤ (getPendingMigrations st).length ∧
      (runPending st t).2.1.applied = ((getPendingMigrations st).take k).map (·.id) ∧
      ((runPending st t).2.1.applied).Pairwise (fun a b => strLe a b = true) ∧
      upsAll ((getPendingMigrations st).take k) st.store =
        .ok (runPending st t).1.store ∧
      (runPending st t).1.log =
        st.log ++ recsFor ((getPendingMigrations st).take k) t ∧
      (runPending st t).1.migrations = st.migrations ∧
      (runPending st t).2.1.errors.length ≤ 1 ∧
      ((runPending st t).2.1.success = true ↔ (runPending st t).2.1.errors = []) ∧
      ((runPending st t).2.1.success = false →
        ∃ mf rest e, (getPendingMigrations st).drop k = mf :: rest ∧
          mf.up (runPending st t).1.store = Except.error e ∧
          (runPending st t).2.1.errors = [(mf.id, e)] ∧
          mf.id ∉ appliedIds (runPending st t).1.log ∧
          ∀ r ∈ st.log, r ∈ (runPending st t).1.log) := by
  have hfresh : ∀ m ∈ getPendingMigrations st, m.id ∉ appliedIds st.log := by
    intro m hm
    have h2 := (List.mem_filter.mp hm).2
    simpa using h2
  have hsub : List.Sublist ((getPendingMigrations st).map (·.id))
      (st.migrations.map (·.id)) :=
    (List.filter_sublist st.migrations).map _
  have hndp : ((getPendingMigrations st).map (·.id)).Nodup := hnd.sublist hsub
  have hsortp : ((getPendingMigrations st).map (·.id)).Pairwise
      (fun a b => strLe a b = true) := hsorted.sublist hsub
  obtain ⟨k, store', E, hk, hups, hrun, hdisj⟩ :=
    runLoop_spec (getPendingMigrations st) st.store st.log t [] hfresh hndp
  have hrp : runPending st t =
      (⟨st.migrations, st.log ++ recsFor ((getPendingMigrations st).take k) t, store'⟩,
       ⟨E.isEmpty, ((getPendingMigrations st).take k).map (·.id), E⟩, t + k) := by
    unfold runPending
    rw [hrun]
    simp only [List.nil_append]
  refine ⟨k, hk, ?_, ?_, ?_, ?_, ?_, ?_, ?_, ?_⟩
  · rw [hrp]
  · rw [hrp]
    show (((getPendingMigrations st).take k).map (·.id)).Pairwise _
    have : ((getPendingMigrations st).take k).map (·.id) =
        (((getPendingMigrations st).map (·.id)).take k) :=
      List.map_take _ _ _
    rw [this]
    exact hsortp.sublist (List.take_sublist _ _)
  · rw [hrp]
    exact hups
  · rw [hrp]
  · rw [hrp]
  · rw [hrp]
    rcases hdisj with ⟨_, hE⟩ | ⟨mf, rest, e, _, _, hE⟩ <;> simp [hE]
  · rw [hrp]
    exact List.isEmpty_iff
  · rw [hrp]
    intro hf
    rcases hdisj with ⟨_, hE⟩ | ⟨mf, rest, e, hdrop, herr, hE⟩
    · rw [hE] at hf
      simp at hf
    · refine ⟨mf, rest, e, hdrop, herr, hE, ?_, ?_⟩
      · show mf.id ∉ appliedIds (st.log ++ recsFor ((getPendingMigrations st).take k) t)
        rw [appliedIds_append, recsFor_ids]
        intro hmem
        rcases List.mem_append.mp hmem with hmem | hmem
        · have hmf_pend : mf ∈ getPendingMigrations st :=
            List.mem_of_mem_drop (by rw [hdrop]; exact List.mem_cons_self mf rest)
          exact hfresh mf hmf_pend hmem
        · have hndsplit := hndp
          rw [← List.take_append_drop k ((getPendingMigrations st).map (·.id))]
            at hndsplit
          have hdisj2 := (List.nodup_append.mp hndsplit).2.2
          have hmfdrop : mf.id ∈ ((getPendingMigrations st).map (·.id)).drop k := by
            rw [← List.map_drop, hdrop, List.map_cons]
            exact List.mem_cons_self _ _
          have hmftake : mf.id ∈ ((getPendingMigrations st).map (·.id)).take k := by
            rw [← List.map_take]
            exact hmem
          exact hdisj2 hmftake hmfdrop
      · intro r hr
        exact List.mem_append_left _ hr

/-- Witness for C4: on a fresh runner with `001_a` succeeding and `002_b`
failing, `runPending` stops after the failure with the characterisation the
theorem states. -/
theorem runPending_fail_fast_witness :
    ((failRunState.migrations.map (·.id)).Pairwise (fun a b => strLe a b = true) ∧
     (failRunState.migrations.map (·.id)).Nodup) ∧
    (∃ k, k ≤ (getPendingMigrations failRunState).length ∧
      (runPending failRunState 0).2.1.applied =
        ((getPendingMigrations failRunState).take k).map (·.id) ∧
      ((runPending failRunState 0).2.1.applied).Pairwise
        (fun a b => strLe a b = true) ∧
      upsAll ((getPendingMigrations failRunState).take k) failRunState.store =
        .ok (runPending failRunState 0).1.store ∧
      (runPending failRunState 0).1.log =
        failRunState.log ++ recsFor ((getPendingMigrations failRunState).take k) 0 ∧
      (runPending failRunState 0).1.migrations = failRunState.migrations ∧
      (runPending failRunState 0).2.1.errors.length ≤ 1 ∧
      ((runPending failRunState 0).2.1.success = true ↔
        (runPending failRunState 0).2.1.errors = []) ∧
      ((runPending failRunState 0).2.1.success = false →
        ∃ mf rest e, (getPendingMigrations failRunState).drop k = mf :: rest ∧
          mf.up (runPending failRunState 0).1.store = Except.error e ∧
          (runPending failRunState 0).2.1.errors = [(mf.id, e)] ∧
          mf.id ∉ appliedIds (runPending failRunState 0).1.log ∧
          ∀ r ∈ failRunState.log, r ∈ (runPending failRunState 0).1.log)) :=
  ⟨⟨by decide, by decide⟩,
   runPending_fail_fast failRunState 0 (by decide) (by decide)⟩

theorem appliedIds_putRec_superset (log : List AppliedRec) (r : AppliedRec)
    (i : String) (h : i ∈ appliedIds log) : i ∈ appliedIds (putRec log r) := by
  unfold putRec
  by_cases hany : log.any (fun x => x.id == r.id) = true
  · rw [if_pos hany]
    rcases List.mem_map.mp h with ⟨x, hx, hxi⟩
    by_cases hxr : (x.id == r.id) = true
    · have himg := List.mem_map_of_mem (fun x => if x.id == r.id then r else x) hx
      simp only [hxr, if_true] at himg
      exact List.mem_map.mpr ⟨r, himg, by rw [← beq_iff_eq.mp hxr]; exact hxi⟩
    · have hxr' : (x.id == r.id) = false := Bool.eq_false_iff.mpr hxr
      have himg := List.mem_map_of_mem (fun x => if x.id == r.id then r else x) hx
      simp only [hxr', Bool.false_eq_true, if_false] at himg
      exact List.mem_map.mpr ⟨x, himg, hxi⟩
  · rw [if_neg hany, appliedIds_append]
    exact List.mem_append_left _ h

theorem appliedIds_putRec_self (log : List AppliedRec) (r : AppliedRec) :
    r.id ∈ appliedIds (putRec log r) := by
  unfold putRec
  by_cases hany : log.any (fun x => x.id == r.id) = true
  · rw [if_pos hany]
    rcases List.any_eq_true.mp hany with ⟨x, hx, hxr⟩
    have himg := List.mem_map_of_mem (fun x => if x.id == r.id then r else x) hx
    simp only [hxr, if_true] at himg
    exact List.mem_map.mpr ⟨r, himg, rfl⟩
  · rw [if_neg hany, appliedIds_append]
    exact List.mem_append_right _ (by simp [appliedIds])

theorem runLoop_log_mono {σ : Type} (pending : List (Migration σ)) (store : σ)
    (log : List AppliedRec) (t : Nat) (acc : List String) (i : String)
    (h : i ∈ appliedIds log) :
    i ∈ appliedIds (runLoop pending store log t acc).2.1 := by
  induction pending generalizing store log t acc with
  | nil => simpa [runLoop]
  | cons m rest ih =>
    cases hup : m.up store with
    | ok s' =>
        simp only [runLoop, hup]
        exact ih _ _ _ _ (appliedIds_putRec_superset _ _ _ h)
    | error e => simpa [runLoop, hup]

theorem runLoop_all_recorded {σ : Type} (pending : List (Migration σ)) (store : σ)
    (log : List AppliedRec) (t : Nat) (acc : List String)
    (hE : (runLoop pending store log t acc).2.2.2.2 = []) :
    ∀ m ∈ pending, m.id ∈ appliedIds (runLoop pending store log t acc).2.1 := by
  induction pending generalizing store log t acc with
  | nil => intro m hm; simp at hm
  | cons m rest ih =>
    cases hup : m.up store with
    | error e => simp [runLoop, hup] at hE
    | ok s' =>
        simp only [runLoop, hup] at hE ⊢
        intro x hx
        rcases List.mem_cons.mp hx with hxm | hx
        · subst hxm
          exact runLoop_log_mono _ _ _ _ _ _ (appliedIds_putRec_self log _)
        · exact ih _ _ _ _ hE x hx

theorem runPending_noop {σ : Type} (st : RunnerState σ) (t : Nat)
    (h : getPendingMigrations st = []) :
    runPending st t = (st, ⟨true, [], []⟩, t) := by
  unfold runPending
  rw [h]
  rfl

/-- C5: after a successful `runPending`, a second call (no new registrations,
any clock value) runs no migration, leaves the state — migration log
included — unchanged, and returns `{success:true, applied:[], errors:[]}`. -/
theorem runPending_idempotent {σ : Type} (st : RunnerState σ) (t t' : Nat)
    (h : (runPending st t).2.1.success = true) :
    runPending (runPending st t).1 t' = ((runPending st t).1, ⟨true, [], []⟩, t') := by
  rcases hrl : runLoop (getPendingMigrations st) st.store st.log t [] with
    ⟨store', log', t'', applied, E⟩
  have hst1 : (runPending st t).1 = ⟨st.migrations, log', store'⟩ := by
    unfold runPending
    rw [hrl]
  have hsucc : E.isEmpty = true := by
    have hq : (runPending st t).2.1.success = E.isEmpty := by
      unfold runPending
      rw [hrl]
    rw [hq] at h
    exact h
  have hE : E = [] := List.isEmpty_iff.mp hsucc
  have hall : ∀ m ∈ getPendingMigrations st, m.id ∈ appliedIds log' := by
    intro m hm
    have h2 := runLoop_all_recorded (getPendingMigrations st) st.store st.log t []
      (by rw [hrl]; exact hE) m hm
    rw [hrl] at h2
    exact h2
  have hmono : ∀ i ∈ appliedIds st.log, i ∈ appliedIds log' := by
    intro i hi
    have h2 := runLoop_log_mono (getPendingMigrations st) st.store st.log t [] i hi
    rw [hrl] at h2
    exact h2
  apply runPending_noop
  rw [hst1]
  unfold getPendingMigrations
  rw [List.filter_eq_nil_iff]
  intro m hm
  by_cases hmp : m.id ∈ appliedIds st.log
  · have := hmono _ hmp
    simp [this]
  · have hmpend : m ∈ getPendingMigrations st := by
      unfold getPendingMigrations
      rw [List.mem_filter]
      exact ⟨hm, by simpa using hmp⟩
    have := hall _ hmpend
    simp [this]

/-- Witness for C5: the spec scenario — `001_a` and `002_b` increment a fresh
counter; the first call applies both, the second call is a no-op returning
`applied: []`. -/
theorem runPending_idempotent_witness :
    (runPending counterRunState 0).2.1 = ⟨true, ["001_a", "002_b"], []⟩ ∧
    (runPending counterRunState 0).1.store = 2 ∧
    runPending (runPending counterRunState 0).1 9 =
      ((runPending counterRunState 0).1, ⟨true, [], []⟩, 9) :=
  ⟨rfl, rfl, runPending_idempotent counterRunState 0 9 rfl⟩

theorem foldlMax_ne_none (log : List AppliedRec) :
    ∀ a : AppliedRec, ∃ r, log.foldl maxAcc (some a) = some r := by
  induction log with
  | nil => exact fun a => ⟨a, rfl⟩
  | cons x xs ih =>
      intro a
      rw [List.foldl_cons]
      by_cases h : a.appliedAt < x.appliedAt
      · rw [show maxAcc (some a) x = some x by simp [maxAcc, h]]
        exact ih x
      · rw [show maxAcc (some a) x = some a by simp [maxAcc, h]]
        exact ih a

theorem foldlMax_spec (log : List AppliedRec) :
    ∀ (acc : Option AppliedRec) (r : AppliedRec),
      log.foldl maxAcc acc = some r →
      (r ∈ log ∨ acc = some r) ∧
      (∀ x ∈ log, x.appliedAt ≤ r.appliedAt) ∧
      (∀ b, acc = some b → b.appliedAt ≤ r.appliedAt) := by
  induction log with
  | nil =>
      intro acc r h
      rw [List.foldl_nil] at h
      refine ⟨Or.inr h, by simp, ?_⟩
      intro b hb
      rw [hb] at h
      rw [Option.some.inj h]
  | cons x xs ih =>
      intro acc r h
      rw [List.foldl_cons] at h
      cases acc with
      | none =>
          have h' : xs.foldl maxAcc (some x) = some r := h
          obtain ⟨h1, h2, h3⟩ := ih (some x) r h'
          refine ⟨?_, ?_, ?_⟩
          · rcases h1 with h1 | h1
            · exact Or.inl (List.mem_cons_of_mem _ h1)
            · exact Or.inl ((Option.some.inj h1) ▸ List.mem_cons_self _ _)
          · intro y hy
            rcases List.mem_cons.mp hy with hy | hy
            · subst hy
              exact h3 y rfl
            · exact h2 y hy
          · intro b hb
            cases hb
      | some b0 =>
          by_cases hlt : b0.appliedAt < x.appliedAt
          · have h' : xs.foldl maxAcc (some x) = some r := by
              rw [show maxAcc (some b0) x = some x by simp [maxAcc, hlt]] at h
              exact h
            obtain ⟨h1, h2, h3⟩ := ih (some x) r h'
            refine ⟨?_, ?_, ?_⟩
            · rcases h1 with h1 | h1
              · exact Or.inl (List.mem_cons_of_mem _ h1)
              · exact Or.inl ((Option.some.inj h1) ▸ List.mem_cons_self _ _)
            · intro y hy
              rcases List.mem_cons.mp hy with hy | hy
              · subst hy
                exact h3 y rfl
              · exact h2 y hy
            · intro b hb
              have hbb : b0 = b := Option.some.inj hb
              exact hbb ▸ Nat.le_trans (Nat.le_of_lt hlt) (h3 x rfl)
          · have h' : xs.foldl maxAcc (some b0) = some r := by
              rw [show maxAcc (some b0) x = some b0 by simp [maxAcc, hlt]] at h
              exact h
            obtain ⟨h1, h2, h3⟩ := ih (some b0) r h'
            refine ⟨?_, ?_, ?_⟩
            · rcases h1 with h1 | h1
              · exact Or.inl (List.mem_cons_of_mem _ h1)
              · exact Or.inr h1
            · intro y hy
              rcases List.mem_cons.mp hy with hy | hy
              · subst hy
                exact Nat.le_trans (Nat.le_of_not_lt hlt) (h3 b0 rfl)
              · exact h2 y hy
            · intro b hb
              have hbb : b0 = b := Option.some.inj hb
              exact hbb ▸ h3 b0 rfl

/-- C9: `rollbackLast` on an empty log succeeds with `rolledBack:null`; on a
non-empty log it selects a record carrying the maximal `appliedAt`; if that
record's migration is not registered, or is registered without a `down`
function, it fails with the corresponding descriptive message and the log is
untouched; if `down` succeeds the applied-record (and only it) is deleted and
`{success:true, rolledBack:id}` returned; if `down` throws, the log is
untouched and `{success:false}` carries the error message. -/
theorem rollbackLast_spec {σ : Type} (st : RunnerState σ) :
    (st.log = [] → rollbackLast st = (st, ⟨true, none, none⟩)) ∧
    (st.log ≠ [] → ∃ r, lastAppliedRec st.log = some r) ∧
    (∀ r, lastAppliedRec st.log = some r →
      r ∈ st.log ∧ (∀ x ∈ st.log, x.appliedAt ≤ r.appliedAt) ∧
      (st.migrations.find? (fun m => m.id == r.id) = none →
        rollbackLast st = (st, ⟨false, none,
          some ("Migration " ++ r.id ++ " not found in registered migrations")⟩)) ∧
      (∀ m, st.migrations.find? (fun m' => m'.id == r.id) = some m →
        (m.down = none →
          rollbackLast st = (st, ⟨false, none,
            some ("Migration " ++ r.id ++ " does not have a rollback function")⟩)) ∧
        (∀ down store', m.down = some down → down st.store = Except.ok store' →
          rollbackLast st =
            (⟨st.migrations, st.log.filter (fun x => !(x.id == m.id)), store'⟩,
             ⟨true, some m.id, none⟩) ∧
          m.id ∉ appliedIds (rollbackLast st).1.log) ∧
        (∀ down e, m.down = some down → down st.store = Except.error e →
          rollbackLast st = (st, ⟨false, none, some e⟩)))) := by
  refine ⟨?_, ?_, ?_⟩
  · intro h
    unfold rollbackLast
    rw [h]
    rfl
  · intro h
    cases hl : st.log with
    | nil => exact absurd hl h
    | cons x xs =>
        unfold lastAppliedRec
        rw [List.foldl_cons]
        exact foldlMax_ne_none xs x
  · intro r hr
    have hspec := foldlMax_spec st.log none r hr
    have hmem : r ∈ st.log := by
      rcases hspec.1 with h1 | h1
      · exact h1
      · cases h1
    refine ⟨hmem, hspec.2.1, ?_, ?_⟩
    · intro hf
      unfold rollbackLast
      simp only [hr, hf]
    · intro m hfm
      refine ⟨?_, ?_, ?_⟩
      · intro hd
        unfold rollbackLast
        simp only [hr, hfm, hd]
      · intro down store' hdn hok
        have heq : rollbackLast st =
            (⟨st.migrations, st.log.filter (fun x => !(x.id == m.id)), store'⟩,
             ⟨true, some m.id, none⟩) := by
          unfold rollbackLast
          simp only [hr, hfm, hdn, hok]
        refine ⟨heq, ?_⟩
        rw [heq]
        intro hmem2
        rcases List.mem_map.mp hmem2 with ⟨x, hx, hxid⟩
        have hxf := (List.mem_filter.mp hx).2
        rw [hxid] at hxf
        simp at hxf
      · intro down e hdn herr
        unfold rollbackLast
        simp only [hr, hfm, hdn, herr]

/-- Witness for C9: an empty applied set rolls back to a success with
`rolledBack:null`; a concrete applied record with a registered `down` is
rolled back, deleting the record and running `down` on the store. -/
theorem rollbackLast_spec_witness :
    rollbackLast (⟨[], [], 0⟩ : RunnerState Nat) =
      ((⟨[], [], 0⟩ : RunnerState Nat), ⟨true, none, none⟩) ∧
    rollbackLast rollbackState =
      (⟨[decMig "001_a"], [], 2⟩, ⟨true, some "001_a", none⟩) :=
  ⟨(rollbackLast_spec (⟨[], [], 0⟩ : RunnerState Nat)).1 rfl,
   ((((rollbackLast_spec rollbackState).2.2 ⟨"001_a", "dec", 5⟩ rfl).2.2.2
      (decMig "001_a") rfl).2.1 (fun n => Except.ok (n - 1)) 2 rfl rfl).1⟩

end SenderNotes
